import Mathlib

/-!
# Book of Life page script (`src/js/main.js`): a shallow embedding

JavaScript numbers are modelled by exact rationals (`ℚ`) or, where the source
only ever produces integers (array indices, `length`), by `ℤ`.  A call of
`Math.random()` is modelled by reading the next entry of a stream
`rnd : ℕ → ℚ`; the draws a call consumes are numbered in source order.
`setTimeout(f, d)` is modelled by appending the pair `(d, f)` to a list of
pending timers.
-/

namespace BookOfLife

/-! ## Golden particles (main.js, lines 15-82) -/

/-- The fields of `class Particle`. -/
structure Particle where
  x : ℚ
  y : ℚ
  size : ℚ
  speedY : ℚ
  speedX : ℚ
  opacity : ℚ
  fadeDir : ℤ
  fadeSpeed : ℚ
  deriving DecidableEq

/-- The drawing surface: `particlesCanvas.width` and `particlesCanvas.height`. -/
structure Canvas where
  width : ℚ
  height : ℚ

/-- `Particle.reset(forceY)`.  With `forceY` true the conditional expression
does not evaluate its `Math.random()`, so seven draws are consumed; otherwise
eight. -/
def Particle.reset (forceY : Bool) (c : Canvas) (rnd : ℕ → ℚ) : Particle :=
  let k : ℕ := if forceY then 1 else 2
  { x := rnd 0 * c.width
    y := if forceY then -10 else rnd 1 * c.height
    size := rnd k * 2.5 + 0.5
    speedY := rnd (k + 1) * 0.3 + 0.1
    speedX := (rnd (k + 2) - 0.5) * 0.3
    opacity := rnd (k + 3) * 0.4 + 0.1
    fadeDir := if rnd (k + 4) > 0.5 then 1 else -1
    fadeSpeed := rnd (k + 5) * 0.003 + 0.001 }

/-- `Particle.update()`: one animation tick of one particle. -/
def Particle.update (p : Particle) (c : Canvas) (rnd : ℕ → ℚ) : Particle :=
  let y := p.y + p.speedY
  let x := p.x + p.speedX
  let opacity := p.opacity + p.fadeDir * p.fadeSpeed
  let fadeDir := if opacity > 0.5 then -1 else p.fadeDir
  let fadeDir := if opacity < 0.05 then 1 else fadeDir
  if y > c.height + 10 then
    Particle.reset true c rnd
  else
    { p with x := x, y := y, opacity := opacity, fadeDir := fadeDir }

/-- What one tick reads from outside the particle: the surface size at that
tick and the random draws a recycling `reset(true)` would consume. -/
structure Tick where
  canvas : Canvas
  rnd : ℕ → ℚ

/-- Successive `update()` calls, one per entry of `ts`, first entry first. -/
def Particle.ticks (p : Particle) (ts : List Tick) : Particle :=
  ts.foldl (fun q t => q.update t.canvas t.rnd) p

/-- Every value returned by `Math.random()` lies in `[0, 1)`. -/
def RandomDraws (rnd : ℕ → ℚ) : Prop := ∀ i, 0 ≤ rnd i ∧ rnd i < 1

/-- The opacity facts every tick preserves: the fade direction is ±1, the
fade speed is one `reset` can draw, the opacity is within one fade step of
[0.05, 0.5], and outside that interval the direction points back into it. -/
def Particle.Fading (p : Particle) : Prop :=
  (p.fadeDir = 1 ∨ p.fadeDir = -1) ∧
  0.001 ≤ p.fadeSpeed ∧ p.fadeSpeed < 0.004 ∧
  0.05 - p.fadeSpeed ≤ p.opacity ∧ p.opacity ≤ 0.5 + p.fadeSpeed ∧
  (p.opacity > 0.5 → p.fadeDir = -1) ∧ (p.opacity < 0.05 → p.fadeDir = 1)

/-- Draws for a `reset(false)` that give opacity 0.499, fade direction +1 and
fade speed 0.003. -/
def overshootDraws : ℕ → ℚ := fun i =>
  if i = 5 then 399 / 400 else if i = 6 then 3 / 4 else if i = 7 then 2 / 3 else 0

/-- A particle below the bottom edge of a 600 px high surface. -/
def fallenParticle : Particle :=
  { x := 100, y := 611, size := 1, speedY := 1 / 5, speedX := 0, opacity := 3 / 10,
    fadeDir := 1, fadeSpeed := 1 / 500 }

/-! ## Pending timers -/

/-- The callbacks the script hands to `setTimeout`. -/
inductive Callback where
  | blowFlame (i : ℕ)
  | blowGlow (i : ℕ)
  | launchConfetti
  | createConfettiPiece
  | showImage (src : String)
  deriving DecidableEq

/-- One `setTimeout(callback, delay)` call. -/
structure Timer where
  delay : ℚ
  callback : Callback
  deriving DecidableEq

/-! ## Cake and candles (main.js, lines 171-207) -/

/-- The page elements `blowCandles` reads: `flames.length`,
`flameGlows.length` and whether `.blow-hint` exists. -/
structure Cake where
  flames : ℕ
  flameGlows : ℕ
  hasBlowHint : Bool

/-- The state `blowCandles` writes: the `candlesBlown` flag, whether the hint
carries the class `hidden`, and the timers scheduled so far. -/
structure CakeState where
  candlesBlown : Bool
  hintHidden : Bool
  timers : List Timer
  deriving DecidableEq

/-- The state at page load: armed, nothing scheduled. -/
def CakeState.armed : CakeState :=
  { candlesBlown := false, hintHidden := false, timers := [] }

/-- `blowCandles()`: the click handler of the cake container. -/
def blowCandles (cake : Cake) (s : CakeState) : CakeState :=
  if s.candlesBlown then s
  else
    let flameTimers := (List.range cake.flames).map
      fun (i : ℕ) => Timer.mk ((i : ℚ) * 150) (Callback.blowFlame i)
    let glowTimers := (List.range cake.flameGlows).map
      fun (i : ℕ) => Timer.mk ((i : ℚ) * 150) (Callback.blowGlow i)
    { candlesBlown := true
      hintHidden := if cake.hasBlowHint then true else s.hintHidden
      timers := s.timers ++ flameTimers ++ glowTimers ++
        [Timer.mk ((cake.flames : ℚ) * 150 + 300) Callback.launchConfetti] }

/-- The timers a click on an armed cake adds, in scheduling order. -/
def cascade (cake : Cake) : List Timer :=
  (blowCandles cake CakeState.armed).timers

/-! ## Confetti (main.js, lines 67 and 209-224) -/

/-- `const isMobile = window.innerWidth < 768`. -/
def isMobile (innerWidth : ℤ) : Bool := decide (innerWidth < 768)

/-- `const confettiCount = isMobile ? 80 : 150`. -/
def confettiCount (mobile : Bool) : ℕ := if mobile then 80 else 150

/-- `launchConfetti()`: the timers one burst schedules; the `i`-th loop
iteration consumes draw `i`. -/
def launchConfetti (mobile : Bool) (rnd : ℕ → ℚ) : List Timer :=
  (List.range (confettiCount mobile)).map
    fun i => Timer.mk (rnd i * 800) Callback.createConfettiPiece

/-! ## Life timer (main.js, lines 265-287) -/

/-- JavaScript `Math.floor`. -/
def mathFloor (a : ℚ) : ℤ := ⌊a⌋

/-- Rounding toward zero. -/
def truncate (a : ℚ) : ℤ := if 0 ≤ a then ⌊a⌋ else ⌈a⌉

/-- JavaScript `a % b` for `b ≠ 0`: the remainder has the sign of `a`. -/
def jsRem (a b : ℚ) : ℚ := a - b * truncate (a / b)

/-- The four numbers `updateTimer` writes into the page. -/
structure TimerFields where
  years : ℤ
  days : ℤ
  hours : ℤ
  minutes : ℤ
  deriving DecidableEq

/-- `updateTimer()`, up to the four computed values; `now` and `birthDate` are
the two dates as milliseconds since the epoch. -/
def updateTimer (now birthDate : ℤ) : TimerFields :=
  let diff : ℚ := now - birthDate
  let years := mathFloor (diff / (365.25 * 24 * 60 * 60 * 1000))
  let remaining : ℚ := diff - years * 365.25 * 24 * 60 * 60 * 1000
  let days := mathFloor (remaining / (24 * 60 * 60 * 1000))
  let hours := mathFloor (jsRem remaining (24 * 60 * 60 * 1000) / (60 * 60 * 1000))
  let minutes := mathFloor (jsRem remaining (60 * 60 * 1000) / (60 * 1000))
  { years := years, days := days, hours := hours, minutes := minutes }

/-! ## Lightbox gallery (main.js, lines 292-353)

The page is taken to contain the `#lightbox` element with its `.lightbox-img`,
and every `.gallery-item` to contain an `img`, as the click handlers of the
source assume. -/

/-- The state the lightbox functions write.  `active` is membership of the
class `active` in `lightbox.classList`. -/
structure Lightbox where
  currentLightboxIndex : ℤ
  imgSrc : String
  imgOpacity : String
  active : Bool
  bodyOverflow : String
  timers : List Timer
  deriving DecidableEq

/-- `galleryItems[index].querySelector('img').src`, where `gallery` lists the
image source of each `.gallery-item` in document order; `none` when
`galleryItems[index]` is `undefined`. -/
def gallerySrc (gallery : List String) (index : ℤ) : Option String :=
  if 0 ≤ index then gallery[index.toNat]? else none

/-- `openLightbox(index)`; `none` stands for the `TypeError` raised when
`galleryItems[index]` is `undefined` (the assignment made before the error is
then not recorded). -/
def openLightbox (gallery : List String) (index : ℤ) (s : Lightbox) : Option Lightbox :=
  match gallerySrc gallery index with
  | none => none
  | some src =>
    some { s with
      currentLightboxIndex := index
      imgSrc := src
      active := true
      bodyOverflow := "hidden" }

/-- The lightbox at page load: `let currentLightboxIndex = 0`, viewer not
active, nothing scheduled. -/
def Lightbox.atLoad : Lightbox :=
  { currentLightboxIndex := 0, imgSrc := "", imgOpacity := "", active := false,
    bodyOverflow := "", timers := [] }

/-- `closeLightbox()`. -/
def closeLightbox (s : Lightbox) : Lightbox :=
  { s with active := false, bodyOverflow := "" }

/-- The common tail of `prevLightbox` and `nextLightbox` once the new index is
computed: look the image up, hide the shown one, schedule the swap 150 ms
later.  The callback reads `img.src` when it fires; gallery sources are never
written, so the value is the one looked up here. -/
def showAt (gallery : List String) (index : ℤ) (s : Lightbox) : Option Lightbox :=
  match gallerySrc gallery index with
  | none => none
  | some src =>
    some { s with
      currentLightboxIndex := index
      imgOpacity := "0"
      timers := s.timers ++ [Timer.mk 150 (Callback.showImage src)] }

/-- `prevLightbox()`.  On an empty gallery `%` yields `NaN` and the lookup
raises, hence `none`. -/
def prevLightbox (gallery : List String) (s : Lightbox) : Option Lightbox :=
  if gallery.length = 0 then none
  else
    showAt gallery
      (Int.tmod (s.currentLightboxIndex - 1 + gallery.length) gallery.length) s

/-- `nextLightbox()`. -/
def nextLightbox (gallery : List String) (s : Lightbox) : Option Lightbox :=
  if gallery.length = 0 then none
  else
    showAt gallery (Int.tmod (s.currentLightboxIndex + 1) gallery.length) s

/-- The two navigation actions. -/
inductive Nav where
  | prev
  | next
  deriving DecidableEq

/-- One navigation call. -/
def Nav.run (gallery : List String) (s : Lightbox) : Nav → Option Lightbox
  | Nav.prev => prevLightbox gallery s
  | Nav.next => nextLightbox gallery s

/-- A finite sequence of navigation calls, first entry first. -/
def navigate (gallery : List String) : List Nav → Lightbox → Option Lightbox
  | [], s => some s
  | n :: ns, s => (n.run gallery s).bind (navigate gallery ns)

/-! ## Lightbox: index arithmetic -/

/-- The index `prevLightbox` computes from a valid index. -/
theorem prevIndex_eq (G i : ℤ) (h0 : 0 ≤ i) (h1 : i < G) :
    Int.tmod (i - 1 + G) G = if i = 0 then G - 1 else i - 1 := by
  rw [Int.tmod_eq_emod (by omega) (by omega)]
  split_ifs with h
  · subst h
    rw [show (0 : ℤ) - 1 + G = G - 1 by ring]
    exact Int.emod_eq_of_lt (by omega) (by omega)
  · rw [Int.add_emod_self]
    exact Int.emod_eq_of_lt (by omega) (by omega)

/-- The index `nextLightbox` computes from a valid index. -/
theorem nextIndex_eq (G i : ℤ) (h0 : 0 ≤ i) (h1 : i < G) :
    Int.tmod (i + 1) G = if i = G - 1 then 0 else i + 1 := by
  rw [Int.tmod_eq_emod (by omega) (by omega)]
  split_ifs with h
  · rw [show i + 1 = G by omega]
    exact Int.emod_self
  · exact Int.emod_eq_of_lt (by omega) (by omega)

theorem gallerySrc_isSome (g : List String) (i : ℤ) (h0 : 0 ≤ i) (h1 : i < g.length) :
    ∃ src, gallerySrc g i = some src ∧ g[i.toNat]? = some src := by
  have hlt : i.toNat < g.length := by omega
  refine ⟨g[i.toNat], ?_, ?_⟩
  · simp [gallerySrc, h0, List.getElem?_eq_getElem hlt]
  · exact List.getElem?_eq_getElem hlt

theorem showAt_index (g : List String) (i : ℤ) (s : Lightbox)
    (h0 : 0 ≤ i) (h1 : i < g.length) :
    ∃ t, showAt g i s = some t ∧ t.currentLightboxIndex = i := by
  obtain ⟨src, hsrc, -⟩ := gallerySrc_isSome g i h0 h1
  exact ⟨{ s with
      currentLightboxIndex := i
      imgOpacity := "0"
      timers := s.timers ++ [Timer.mk 150 (Callback.showImage src)] },
    by simp only [showAt, hsrc], rfl⟩

theorem prevLightbox_index (g : List String) (s : Lightbox)
    (h0 : 0 ≤ s.currentLightboxIndex) (h1 : s.currentLightboxIndex < g.length) :
    ∃ t, prevLightbox g s = some t ∧ t.currentLightboxIndex =
      if s.currentLightboxIndex = 0 then (g.length : ℤ) - 1 else s.currentLightboxIndex - 1 := by
  have hne : g.length ≠ 0 := by omega
  have hidx := prevIndex_eq g.length s.currentLightboxIndex h0 h1
  obtain ⟨t, ht, hti⟩ := showAt_index g
    (Int.tmod (s.currentLightboxIndex - 1 + g.length) g.length) s
    (by rw [hidx]; split_ifs <;> omega) (by rw [hidx]; split_ifs <;> omega)
  exact ⟨t, by simp only [prevLightbox, hne, if_false, ht], by rw [hti, hidx]⟩

theorem nextLightbox_index (g : List String) (s : Lightbox)
    (h0 : 0 ≤ s.currentLightboxIndex) (h1 : s.currentLightboxIndex < g.length) :
    ∃ t, nextLightbox g s = some t ∧ t.currentLightboxIndex =
      if s.currentLightboxIndex = (g.length : ℤ) - 1 then 0 else s.currentLightboxIndex + 1 := by
  have hne : g.length ≠ 0 := by omega
  have hidx := nextIndex_eq g.length s.currentLightboxIndex h0 h1
  obtain ⟨t, ht, hti⟩ := showAt_index g
    (Int.tmod (s.currentLightboxIndex + 1) g.length) s
    (by rw [hidx]; split_ifs <;> omega) (by rw [hidx]; split_ifs <;> omega)
  exact ⟨t, by simp only [nextLightbox, hne, if_false, ht], by rw [hti, hidx]⟩

theorem Nav.run_index (g : List String) (n : Nav) (s : Lightbox)
    (h0 : 0 ≤ s.currentLightboxIndex) (h1 : s.currentLightboxIndex < g.length) :
    ∃ t, n.run g s = some t ∧ 0 ≤ t.currentLightboxIndex ∧
      t.currentLightboxIndex < g.length := by
  cases n with
  | prev =>
    obtain ⟨t, ht, hti⟩ := prevLightbox_index g s h0 h1
    refine ⟨t, ht, ?_, ?_⟩ <;> rw [hti] <;> split_ifs <;> omega
  | next =>
    obtain ⟨t, ht, hti⟩ := nextLightbox_index g s h0 h1
    refine ⟨t, ht, ?_, ?_⟩ <;> rw [hti] <;> split_ifs <;> omega

theorem navigate_index (g : List String) (ns : List Nav) (s : Lightbox)
    (h0 : 0 ≤ s.currentLightboxIndex) (h1 : s.currentLightboxIndex < g.length) :
    ∃ t, navigate g ns s = some t ∧ 0 ≤ t.currentLightboxIndex ∧
      t.currentLightboxIndex < g.length := by
  induction ns generalizing s with
  | nil => exact ⟨s, rfl, h0, h1⟩
  | cons n ns ih =>
    obtain ⟨t, ht, ht0, ht1⟩ := Nav.run_index g n s h0 h1
    obtain ⟨u, hu, hu0, hu1⟩ := ih t ht0 ht1
    exact ⟨u, by simp [navigate, ht, hu], hu0, hu1⟩

theorem openLightbox_index (g : List String) (i : ℤ) (s0 s : Lightbox)
    (h : openLightbox g i s0 = some s) : s.currentLightboxIndex = i := by
  unfold openLightbox at h
  split at h
  · exact absurd h (by simp)
  · simp only [Option.some.injEq] at h
    rw [← h]

theorem nextLightbox_index_emod (g : List String) (s : Lightbox)
    (h0 : 0 ≤ s.currentLightboxIndex) (h1 : s.currentLightboxIndex < g.length) :
    ∃ t, nextLightbox g s = some t ∧
      t.currentLightboxIndex = (s.currentLightboxIndex + 1) % (g.length : ℤ) := by
  obtain ⟨t, ht, hti⟩ := nextLightbox_index g s h0 h1
  refine ⟨t, ht, ?_⟩
  rw [hti, ← nextIndex_eq g.length s.currentLightboxIndex h0 h1,
    Int.tmod_eq_emod (by omega) (by omega)]

theorem prevLightbox_index_emod (g : List String) (s : Lightbox)
    (h0 : 0 ≤ s.currentLightboxIndex) (h1 : s.currentLightboxIndex < g.length) :
    ∃ t, prevLightbox g s = some t ∧
      t.currentLightboxIndex = (s.currentLightboxIndex - 1) % (g.length : ℤ) := by
  obtain ⟨t, ht, hti⟩ := prevLightbox_index g s h0 h1
  refine ⟨t, ht, ?_⟩
  rw [hti, ← prevIndex_eq g.length s.currentLightboxIndex h0 h1,
    Int.tmod_eq_emod (by omega) (by omega), Int.add_emod_self]

theorem navigate_replicate_next (g : List String) (k : ℕ) (s : Lightbox)
    (h0 : 0 ≤ s.currentLightboxIndex) (h1 : s.currentLightboxIndex < g.length) :
    ∃ t, navigate g (List.replicate k Nav.next) s = some t ∧
      t.currentLightboxIndex = (s.currentLightboxIndex + k) % (g.length : ℤ) := by
  induction k generalizing s with
  | zero =>
    exact ⟨s, rfl, by simpa using (Int.emod_eq_of_lt h0 h1).symm⟩
  | succ k ih =>
    obtain ⟨t, ht, hti⟩ := nextLightbox_index_emod g s h0 h1
    have hpos : (0 : ℤ) < g.length := by omega
    obtain ⟨u, hu, hui⟩ := ih t (by rw [hti]; exact Int.emod_nonneg _ (by omega))
      (by rw [hti]; exact Int.emod_lt_of_pos _ hpos)
    refine ⟨u, by simp [List.replicate_succ, navigate, Nav.run, ht, hu], ?_⟩
    rw [hui, hti, Int.emod_add_emod]
    push_cast
    ring_nf

theorem navigate_replicate_prev (g : List String) (k : ℕ) (s : Lightbox)
    (h0 : 0 ≤ s.currentLightboxIndex) (h1 : s.currentLightboxIndex < g.length) :
    ∃ t, navigate g (List.replicate k Nav.prev) s = some t ∧
      t.currentLightboxIndex = (s.currentLightboxIndex - k) % (g.length : ℤ) := by
  induction k generalizing s with
  | zero =>
    exact ⟨s, rfl, by simpa using (Int.emod_eq_of_lt h0 h1).symm⟩
  | succ k ih =>
    obtain ⟨t, ht, hti⟩ := prevLightbox_index_emod g s h0 h1
    have hpos : (0 : ℤ) < g.length := by omega
    obtain ⟨u, hu, hui⟩ := ih t (by rw [hti]; exact Int.emod_nonneg _ (by omega))
      (by rw [hti]; exact Int.emod_lt_of_pos _ hpos)
    refine ⟨u, by simp [List.replicate_succ, navigate, Nav.run, ht, hu], ?_⟩
    rw [hui, hti, Int.sub_emod, Int.emod_emod, ← Int.sub_emod]
    push_cast
    ring_nf

/-! ## Lightbox: the claims -/

/-- C1: on a gallery of size G ≥ 1, starting from index 0 or from an index set
by `openLightbox(i)` with 0 ≤ i < G, every finite sequence of
`prevLightbox`/`nextLightbox` calls runs without error and leaves the current
index in [0, G-1]; `prevLightbox` from index 0 yields G-1 and `nextLightbox`
from index G-1 yields 0. -/
theorem lightbox_index_valid (g : List String) (s : Lightbox) (hG : 1 ≤ g.length)
    (hs : s.currentLightboxIndex = 0 ∨
      ∃ (i : ℤ) (s0 : Lightbox), 0 ≤ i ∧ i < g.length ∧ openLightbox g i s0 = some s) :
    (∀ ns : List Nav, ∃ t, navigate g ns s = some t ∧
      0 ≤ t.currentLightboxIndex ∧ t.currentLightboxIndex ≤ (g.length : ℤ) - 1) ∧
    (∀ u : Lightbox, u.currentLightboxIndex = 0 →
      ∃ t, prevLightbox g u = some t ∧ t.currentLightboxIndex = (g.length : ℤ) - 1) ∧
    (∀ u : Lightbox, u.currentLightboxIndex = (g.length : ℤ) - 1 →
      ∃ t, nextLightbox g u = some t ∧ t.currentLightboxIndex = 0) := by
  have hrange : 0 ≤ s.currentLightboxIndex ∧ s.currentLightboxIndex < g.length := by
    rcases hs with h | ⟨i, s0, hi0, hi1, hopen⟩
    · rw [h]; omega
    · rw [openLightbox_index g i s0 s hopen]; exact ⟨hi0, hi1⟩
  refine ⟨fun ns => ?_, fun u hu => ?_, fun u hu => ?_⟩
  · obtain ⟨t, ht, ht0, ht1⟩ := navigate_index g ns s hrange.1 hrange.2
    exact ⟨t, ht, ht0, by omega⟩
  · obtain ⟨t, ht, hti⟩ := prevLightbox_index g u (by omega) (by omega)
    exact ⟨t, ht, by rw [hti, if_pos hu]⟩
  · obtain ⟨t, ht, hti⟩ := nextLightbox_index g u (by omega) (by omega)
    exact ⟨t, ht, by rw [hti, if_pos hu]⟩

/-- C1 at a three-image gallery, from the state at page load. -/
theorem lightbox_index_valid_witness :
    ((navigate ["a.jpg", "b.jpg", "c.jpg"] [Nav.prev, Nav.prev, Nav.next, Nav.next, Nav.next]
        Lightbox.atLoad).map Lightbox.currentLightboxIndex = some 1) ∧
    (∀ ns : List Nav, ∃ t, navigate ["a.jpg", "b.jpg", "c.jpg"] ns Lightbox.atLoad = some t ∧
      0 ≤ t.currentLightboxIndex ∧ t.currentLightboxIndex ≤ 2) :=
  ⟨by decide,
    (lightbox_index_valid ["a.jpg", "b.jpg", "c.jpg"] Lightbox.atLoad (by decide)
      (Or.inl rfl)).1⟩

/-- C6: on a gallery of size G ≥ 1 and for 0 ≤ i < G, `openLightbox(i)` runs
without error, sets the current index to i, shows the image source of gallery
item i, marks the viewer active and sets the body overflow to `hidden`; a
following `closeLightbox` clears the active mark, resets the body overflow to
the empty string and leaves the current index equal to i. -/
theorem openLightbox_result (g : List String) (i : ℤ) (s0 : Lightbox)
    (_hG : 1 ≤ g.length) (h0 : 0 ≤ i) (h1 : i < g.length) :
    ∃ (s : Lightbox) (src : String),
      openLightbox g i s0 = some s ∧ g[i.toNat]? = some src ∧
      s.currentLightboxIndex = i ∧ s.imgSrc = src ∧ s.active = true ∧
      s.bodyOverflow = "hidden" ∧
      (closeLightbox s).active = false ∧ (closeLightbox s).bodyOverflow = "" ∧
      (closeLightbox s).currentLightboxIndex = i := by
  obtain ⟨src, hsrc, hget⟩ := gallerySrc_isSome g i h0 h1
  exact ⟨{ s0 with
      currentLightboxIndex := i
      imgSrc := src
      active := true
      bodyOverflow := "hidden" }, src,
    by simp only [openLightbox, hsrc], hget, rfl, rfl, rfl, rfl, rfl, rfl, rfl⟩

/-- C6 at the second image of a three-image gallery. -/
theorem openLightbox_result_witness :
    (openLightbox ["a.jpg", "b.jpg", "c.jpg"] 1 Lightbox.atLoad).map Lightbox.imgSrc
        = some "b.jpg" ∧
    ∃ (s : Lightbox) (src : String),
      openLightbox ["a.jpg", "b.jpg", "c.jpg"] 1 Lightbox.atLoad = some s ∧
      ["a.jpg", "b.jpg", "c.jpg"][(1 : ℤ).toNat]? = some src ∧
      s.currentLightboxIndex = 1 ∧ s.imgSrc = src ∧ s.active = true ∧
      s.bodyOverflow = "hidden" ∧
      (closeLightbox s).active = false ∧ (closeLightbox s).bodyOverflow = "" ∧
      (closeLightbox s).currentLightboxIndex = 1 :=
  ⟨by decide,
    openLightbox_result ["a.jpg", "b.jpg", "c.jpg"] 1 Lightbox.atLoad (by decide)
      (by decide) (by decide)⟩

/-- C10: on a gallery of size G ≥ 1 and from a current index i with
0 ≤ i < G, `nextLightbox` followed by `prevLightbox`, `prevLightbox` followed
by `nextLightbox`, G successive `nextLightbox` calls and G successive
`prevLightbox` calls all run without error and leave the current index equal
to i. -/
theorem prev_next_inverse (g : List String) (s : Lightbox) (hG : 1 ≤ g.length)
    (h0 : 0 ≤ s.currentLightboxIndex) (h1 : s.currentLightboxIndex < g.length) :
    ((nextLightbox g s).bind (prevLightbox g)).map Lightbox.currentLightboxIndex
        = some s.currentLightboxIndex ∧
    ((prevLightbox g s).bind (nextLightbox g)).map Lightbox.currentLightboxIndex
        = some s.currentLightboxIndex ∧
    (navigate g (List.replicate g.length Nav.next) s).map Lightbox.currentLightboxIndex
        = some s.currentLightboxIndex ∧
    (navigate g (List.replicate g.length Nav.prev) s).map Lightbox.currentLightboxIndex
        = some s.currentLightboxIndex := by
  refine ⟨?_, ?_, ?_, ?_⟩
  · obtain ⟨t, ht, hti⟩ := nextLightbox_index g s h0 h1
    obtain ⟨u, hu, hui⟩ := prevLightbox_index g t (by rw [hti]; split_ifs <;> omega)
      (by rw [hti]; split_ifs <;> omega)
    rw [ht, Option.some_bind, hu, Option.map_some', hui, hti]
    congr 1
    split_ifs <;> omega
  · obtain ⟨t, ht, hti⟩ := prevLightbox_index g s h0 h1
    obtain ⟨u, hu, hui⟩ := nextLightbox_index g t (by rw [hti]; split_ifs <;> omega)
      (by rw [hti]; split_ifs <;> omega)
    rw [ht, Option.some_bind, hu, Option.map_some', hui, hti]
    congr 1
    split_ifs <;> omega
  · obtain ⟨t, ht, hti⟩ := navigate_replicate_next g g.length s h0 h1
    rw [ht, Option.map_some', hti, Int.add_emod_self, Int.emod_eq_of_lt h0 h1]
  · obtain ⟨t, ht, hti⟩ := navigate_replicate_prev g g.length s h0 h1
    rw [ht, Option.map_some', hti, Int.sub_emod, Int.emod_self, sub_zero, Int.emod_emod,
      Int.emod_eq_of_lt h0 h1]

/-- C10 at the last image of a three-image gallery. -/
theorem prev_next_inverse_witness :
    ((nextLightbox ["a.jpg", "b.jpg", "c.jpg"]
        { Lightbox.atLoad with currentLightboxIndex := 2 }).map
        Lightbox.currentLightboxIndex = some 0) ∧
    ((nextLightbox ["a.jpg", "b.jpg", "c.jpg"]
        { Lightbox.atLoad with currentLightboxIndex := 2 }).bind
        (prevLightbox ["a.jpg", "b.jpg", "c.jpg"])).map Lightbox.currentLightboxIndex
        = some 2 :=
  ⟨by decide,
    (prev_next_inverse ["a.jpg", "b.jpg", "c.jpg"]
      { Lightbox.atLoad with currentLightboxIndex := 2 } (by decide) (by decide)
      (by decide)).1⟩

/-! ## Cake and candles -/

theorem blowCandles_of_blown (cake : Cake) (s : CakeState) (h : s.candlesBlown = true) :
    blowCandles cake s = s := by
  simp [blowCandles, h]

theorem blowCandles_blown (cake : Cake) (s : CakeState) :
    (blowCandles cake s).candlesBlown = true := by
  by_cases h : s.candlesBlown = true
  · simp [blowCandles, h]
  · simp [blowCandles, h]

theorem cascade_eq (cake : Cake) :
    cascade cake =
      (List.range cake.flames).map (fun (i : ℕ) => Timer.mk ((i : ℚ) * 150) (Callback.blowFlame i))
      ++ (List.range cake.flameGlows).map
        (fun (i : ℕ) => Timer.mk ((i : ℚ) * 150) (Callback.blowGlow i))
      ++ [Timer.mk ((cake.flames : ℚ) * 150 + 300) Callback.launchConfetti] := by
  simp [cascade, blowCandles, CakeState.armed]

theorem blowCandles_timers (cake : Cake) (s : CakeState) (h : s.candlesBlown = false) :
    (blowCandles cake s).timers = s.timers ++ cascade cake := by
  simp [cascade, blowCandles, CakeState.armed, h]

theorem cascade_callbacks (cake : Cake) :
    (cascade cake).map Timer.callback =
      (List.range cake.flames).map Callback.blowFlame
      ++ (List.range cake.flameGlows).map Callback.blowGlow
      ++ [Callback.launchConfetti] := by
  rw [cascade_eq]
  simp [List.map_append, List.map_map, Function.comp_def]

theorem count_map_range (f : ℕ → Callback) (c : Callback) (n : ℕ) (i : ℕ)
    (hf : ∀ j, f j = c ↔ j = i) :
    ((List.range n).map f).count c = if i < n then 1 else 0 := by
  induction n with
  | zero => simp
  | succ n ih =>
    rw [List.range_succ, List.map_append, List.count_append, ih]
    by_cases hin : n = i
    · subst hin
      simp [(hf n).2 rfl]
    · have hne : f n ≠ c := fun h => hin ((hf n).1 h)
      have : ¬ (i = n) := fun h => hin h.symm
      simp only [List.map_cons, List.map_nil, List.count_cons, List.count_nil, beq_iff_eq, hne,
        if_false, add_zero]
      split_ifs <;> omega

theorem count_map_range_other (f : ℕ → Callback) (c : Callback) (n : ℕ)
    (hf : ∀ j, f j ≠ c) : ((List.range n).map f).count c = 0 := by
  rw [List.count_eq_zero]
  intro hmem
  obtain ⟨j, -, hj⟩ := List.mem_map.1 hmem
  exact hf j hj

/-- C3: a second click on the cake container leaves exactly the state of the
first one; a click made while `candlesBlown` is true changes nothing; and the
timers that one or two clicks add to an armed state are the same list, holding
exactly one `blown` action for each flame index and each glow index (none for
an index past the count) and exactly one `launchConfetti` action. -/
theorem blowCandles_one_shot (cake : Cake) (s : CakeState) :
    blowCandles cake (blowCandles cake s) = blowCandles cake s ∧
    (s.candlesBlown = true → blowCandles cake s = s) ∧
    (s.candlesBlown = false →
      (blowCandles cake (blowCandles cake s)).timers = s.timers ++ cascade cake) ∧
    (∀ i, ((cascade cake).map Timer.callback).count (Callback.blowFlame i)
      = if i < cake.flames then 1 else 0) ∧
    (∀ i, ((cascade cake).map Timer.callback).count (Callback.blowGlow i)
      = if i < cake.flameGlows then 1 else 0) ∧
    ((cascade cake).map Timer.callback).count Callback.launchConfetti = 1 ∧
    (cascade cake).length = cake.flames + cake.flameGlows + 1 := by
  have hidem : blowCandles cake (blowCandles cake s) = blowCandles cake s :=
    blowCandles_of_blown cake _ (blowCandles_blown cake s)
  refine ⟨hidem, blowCandles_of_blown cake s, fun h => ?_, fun i => ?_, fun i => ?_, ?_, ?_⟩
  · rw [hidem, blowCandles_timers cake s h]
  · rw [cascade_callbacks, List.count_append, List.count_append,
      count_map_range Callback.blowFlame _ cake.flames i (by simp),
      count_map_range_other Callback.blowGlow _ cake.flameGlows (by simp)]
    simp
  · rw [cascade_callbacks, List.count_append, List.count_append,
      count_map_range_other Callback.blowFlame _ cake.flames (by simp),
      count_map_range Callback.blowGlow _ cake.flameGlows i (by simp)]
    simp
  · rw [cascade_callbacks, List.count_append, List.count_append,
      count_map_range_other Callback.blowFlame _ cake.flames (by simp),
      count_map_range_other Callback.blowGlow _ cake.flameGlows (by simp)]
    simp
  · simp [cascade_eq, Nat.add_assoc]

/-- C8: the first click (on a state with `candlesBlown` false) adds the timers
of the cascade, in which flame i (i < n, n the number of flames) is blown at
delay 150*i and at no other delay, the confetti burst is launched at delay
150*n + 300 and at no other delay, and every flame's delay is strictly smaller
than the confetti delay. -/
theorem candle_cascade_timing (cake : Cake) (s : CakeState) (h : s.candlesBlown = false) :
    (blowCandles cake s).timers = s.timers ++ cascade cake ∧
    (∀ i : ℕ, i < cake.flames →
      Timer.mk (150 * (i : ℚ)) (Callback.blowFlame i) ∈ cascade cake) ∧
    Timer.mk (150 * (cake.flames : ℚ) + 300) Callback.launchConfetti ∈ cascade cake ∧
    (∀ t ∈ cascade cake, ∀ i : ℕ, t.callback = Callback.blowFlame i →
      i < cake.flames ∧ t.delay = 150 * (i : ℚ)) ∧
    (∀ t ∈ cascade cake, t.callback = Callback.launchConfetti →
      t.delay = 150 * (cake.flames : ℚ) + 300) ∧
    (∀ i : ℕ, i < cake.flames → 150 * (i : ℚ) < 150 * (cake.flames : ℚ) + 300) := by
  refine ⟨blowCandles_timers cake s h, fun i hi => ?_, ?_, fun t ht i hcb => ?_,
    fun t ht hcb => ?_, fun i hi => ?_⟩
  · rw [cascade_eq]
    refine List.mem_append_left _ (List.mem_append_left _ (List.mem_map.2 ⟨i, ?_, ?_⟩))
    · exact List.mem_range.2 hi
    · rw [mul_comm]
  · rw [cascade_eq]
    refine List.mem_append_right _ ?_
    rw [mul_comm]
    exact List.mem_singleton_self _
  · rw [cascade_eq] at ht
    rcases List.mem_append.1 ht with h1 | h1
    · rcases List.mem_append.1 h1 with h2 | h2
      · obtain ⟨j, hj, rfl⟩ := List.mem_map.1 h2
        simp only [Callback.blowFlame.injEq] at hcb
        subst hcb
        exact ⟨List.mem_range.1 hj, mul_comm _ _⟩
      · obtain ⟨j, -, rfl⟩ := List.mem_map.1 h2
        simp at hcb
    · rw [List.mem_singleton] at h1
      subst h1
      simp at hcb
  · rw [cascade_eq] at ht
    rcases List.mem_append.1 ht with h1 | h1
    · rcases List.mem_append.1 h1 with h2 | h2
      · obtain ⟨j, -, rfl⟩ := List.mem_map.1 h2
        simp at hcb
      · obtain ⟨j, -, rfl⟩ := List.mem_map.1 h2
        simp at hcb
    · rw [List.mem_singleton] at h1
      subst h1
      show (cake.flames : ℚ) * 150 + 300 = 150 * (cake.flames : ℚ) + 300
      ring
  · have : (i : ℚ) < cake.flames := by exact_mod_cast hi
    linarith

/-- C8 on a cake with three flames and three glows, from the state at load. -/
theorem candle_cascade_timing_witness :
    (blowCandles ⟨3, 3, true⟩ CakeState.armed).timers.map Timer.callback
      = [Callback.blowFlame 0, Callback.blowFlame 1, Callback.blowFlame 2,
         Callback.blowGlow 0, Callback.blowGlow 1, Callback.blowGlow 2,
         Callback.launchConfetti] ∧
    Timer.mk (150 * ((2 : ℕ) : ℚ)) (Callback.blowFlame 2) ∈ cascade ⟨3, 3, true⟩ ∧
    Timer.mk (150 * ((3 : ℕ) : ℚ) + 300) Callback.launchConfetti ∈ cascade ⟨3, 3, true⟩ :=
  ⟨by decide,
    (candle_cascade_timing ⟨3, 3, true⟩ CakeState.armed rfl).2.1 2 (by decide),
    (candle_cascade_timing ⟨3, 3, true⟩ CakeState.armed rfl).2.2.1⟩

/-! ## Confetti -/

/-- C7: for a viewport width w read at load and random draws in [0, 1), one
`launchConfetti` call schedules exactly 150 timers when w ≥ 768 and exactly 80
when w < 768; each of them runs `createConfettiPiece` after a delay d with
0 ≤ d < 800. -/
theorem launchConfetti_burst (w : ℤ) (rnd : ℕ → ℚ) (hr : RandomDraws rnd) :
    (launchConfetti (isMobile w) rnd).length = (if 768 ≤ w then 150 else 80) ∧
    (∀ t ∈ launchConfetti (isMobile w) rnd,
      t.callback = Callback.createConfettiPiece ∧ 0 ≤ t.delay ∧ t.delay < 800) := by
  constructor
  · simp only [launchConfetti, List.length_map, List.length_range, confettiCount, isMobile]
    by_cases hw : w < 768
    · simp [hw, not_le.2 hw]
    · simp [hw, not_lt.1 hw]
  · intro t ht
    obtain ⟨i, -, rfl⟩ := List.mem_map.1 ht
    have := hr i
    exact ⟨rfl, by dsimp only; linarith [this.1], by dsimp only; linarith [this.2]⟩

/-- C7 on a desktop viewport 1024 px wide with every draw equal to 1/2. -/
theorem launchConfetti_burst_witness :
    RandomDraws (fun _ => 1 / 2) ∧
    (launchConfetti (isMobile 1024) (fun _ => 1 / 2)).length = 150 ∧
    (∀ t ∈ launchConfetti (isMobile 1024) (fun _ => 1 / 2),
      t.callback = Callback.createConfettiPiece ∧ 0 ≤ t.delay ∧ t.delay < 800) :=
  have hr : RandomDraws (fun _ => 1 / 2) := fun _ => by norm_num
  ⟨hr, by simpa using (launchConfetti_burst 1024 (fun _ => 1 / 2) hr).1,
    (launchConfetti_burst 1024 (fun _ => 1 / 2) hr).2⟩

/-! ## Life timer -/

theorem mathFloor_int_div (a : ℤ) (n : ℕ) : mathFloor ((a : ℚ) / (n : ℚ)) = a / (n : ℤ) :=
  Rat.floor_intCast_div_natCast a n

theorem jsRem_int (a : ℤ) (n : ℕ) (ha : 0 ≤ a) :
    jsRem (a : ℚ) (n : ℚ) = ((a % (n : ℤ) : ℤ) : ℚ) := by
  have hq : (0 : ℚ) ≤ (a : ℚ) / (n : ℚ) :=
    div_nonneg (by exact_mod_cast ha) (by exact_mod_cast Nat.zero_le n)
  rw [jsRem, truncate, if_pos hq, Rat.floor_intCast_div_natCast, Int.emod_def]
  push_cast
  ring

/-- The computation of `updateTimer` in integer arithmetic. -/
theorem updateTimer_eq (now birthDate : ℤ) (h : birthDate ≤ now) :
    updateTimer now birthDate =
      { years := (now - birthDate) / 31557600000
        days := (now - birthDate) % 31557600000 / 86400000
        hours := (now - birthDate) % 31557600000 % 86400000 / 3600000
        minutes := (now - birthDate) % 31557600000 % 3600000 / 60000 } := by
  have hd : (0 : ℤ) ≤ now - birthDate := by omega
  have hr : (0 : ℤ) ≤ (now - birthDate) % 31557600000 := Int.emod_nonneg _ (by norm_num)
  have hY : (365.25 * 24 * 60 * 60 * 1000 : ℚ) = ((31557600000 : ℕ) : ℚ) := by norm_num
  have hD : (24 * 60 * 60 * 1000 : ℚ) = ((86400000 : ℕ) : ℚ) := by norm_num
  have hH : (60 * 60 * 1000 : ℚ) = ((3600000 : ℕ) : ℚ) := by norm_num
  have hM : (60 * 1000 : ℚ) = ((60000 : ℕ) : ℚ) := by norm_num
  have hdiff : ((now : ℚ) - (birthDate : ℚ)) = ((now - birthDate : ℤ) : ℚ) := by push_cast; ring
  have hyears : mathFloor (((now : ℚ) - (birthDate : ℚ)) / (365.25 * 24 * 60 * 60 * 1000))
      = (now - birthDate) / 31557600000 := by
    rw [hY, hdiff, mathFloor_int_div]; rfl
  have hrem : ((now : ℚ) - (birthDate : ℚ))
      - (((now - birthDate) / 31557600000 : ℤ) : ℚ) * 365.25 * 24 * 60 * 60 * 1000
      = (((now - birthDate) % 31557600000 : ℤ) : ℚ) := by
    rw [Int.emod_def]
    push_cast
    ring
  simp only [updateTimer, hyears, hrem]
  rw [hD, hH, hM, mathFloor_int_div, jsRem_int _ _ hr, jsRem_int _ _ hr, mathFloor_int_div,
    mathFloor_int_div]
  rfl

/-- C4: for a non-negative elapsed time diff = now - birthDate in milliseconds,
`updateTimer` computes years = floor(diff / 31557600000) and days, hours,
minutes with 0 ≤ days ≤ 365, 0 ≤ hours < 24, 0 ≤ minutes < 60 and
years*31557600000 + days*86400000 + hours*3600000 + minutes*60000 ≤ diff
< that sum + 60000. -/
theorem updateTimer_decomposition (now birthDate : ℤ) (h : birthDate ≤ now) :
    (updateTimer now birthDate).years = ⌊((now - birthDate : ℤ) : ℚ) / 31557600000⌋ ∧
    0 ≤ (updateTimer now birthDate).days ∧ (updateTimer now birthDate).days ≤ 365 ∧
    0 ≤ (updateTimer now birthDate).hours ∧ (updateTimer now birthDate).hours < 24 ∧
    0 ≤ (updateTimer now birthDate).minutes ∧ (updateTimer now birthDate).minutes < 60 ∧
    (updateTimer now birthDate).years * 31557600000
      + (updateTimer now birthDate).days * 86400000
      + (updateTimer now birthDate).hours * 3600000
      + (updateTimer now birthDate).minutes * 60000 ≤ now - birthDate ∧
    now - birthDate < (updateTimer now birthDate).years * 31557600000
      + (updateTimer now birthDate).days * 86400000
      + (updateTimer now birthDate).hours * 3600000
      + (updateTimer now birthDate).minutes * 60000 + 60000 := by
  have hfloor : ⌊((now - birthDate : ℤ) : ℚ) / 31557600000⌋ = (now - birthDate) / 31557600000 := by
    have := Rat.floor_intCast_div_natCast (now - birthDate) 31557600000
    simpa using this
  rw [updateTimer_eq now birthDate h, hfloor]
  dsimp only
  refine ⟨rfl, ?_, ?_, ?_, ?_, ?_, ?_, ?_, ?_⟩ <;> omega

/-- C4 exactly ten 365.25-day years after 1977-02-20T00:00Z. -/
theorem updateTimer_decomposition_witness :
    updateTimer (225244800000 + 10 * 31557600000) 225244800000
      = { years := 10, days := 0, hours := 0, minutes := 0 } := by
  have h := updateTimer_decomposition (225244800000 + 10 * 31557600000) 225244800000
    (by decide)
  generalize updateTimer (225244800000 + 10 * 31557600000) 225244800000 = f at h
  obtain ⟨y, d, hh, m⟩ := f
  dsimp only at h
  obtain ⟨hy, h1, h2, h3, h4, h5, h6, h7, h8⟩ := h
  have hy10 : y = 10 := by rw [hy]; norm_num
  subst hy10
  have hd0 : d = 0 := by omega
  subst hd0
  have hh0 : hh = 0 := by omega
  subst hh0
  have hm0 : m = 0 := by omega
  subst hm0
  rfl

/-! ## Golden particles -/

theorem Particle.reset_fading (forceY : Bool) (c : Canvas) (rnd : ℕ → ℚ)
    (hr : RandomDraws rnd) : (Particle.reset forceY c rnd).Fading := by
  have h3 := hr ((if forceY then 1 else 2) + 3)
  have h5 := hr ((if forceY then 1 else 2) + 5)
  simp only [Particle.Fading, Particle.reset]
  refine ⟨?_, ?_, ?_, ?_, ?_, ?_, ?_⟩
  · split_ifs <;> simp
  · norm_num; linarith [h5.1]
  · norm_num; linarith [h5.2]
  · norm_num; linarith [h3.1, h5.1]
  · norm_num; linarith [h3.2, h5.1]
  · intro h; norm_num at h; linarith [h3.2]
  · intro h; norm_num at h; linarith [h3.1]

theorem Particle.update_fading (p : Particle) (c : Canvas) (rnd : ℕ → ℚ)
    (hp : p.Fading) (hr : RandomDraws rnd) : (p.update c rnd).Fading := by
  by_cases hy : p.y + p.speedY > c.height + 10
  · rw [Particle.update]
    simp only [hy, if_true]
    exact Particle.reset_fading true c rnd hr
  · obtain ⟨hdir, hs1, hs2, hlo, hhi, hup, hdown⟩ := hp
    have hbounds : 0.05 - p.fadeSpeed ≤ p.opacity + p.fadeDir * p.fadeSpeed ∧
        p.opacity + p.fadeDir * p.fadeSpeed ≤ 0.5 + p.fadeSpeed := by
      norm_num at hs1 hs2 hlo hhi hup hdown ⊢
      rcases hdir with hd | hd
      · have hle : p.opacity ≤ 1 / 2 := by
          by_contra hgt
          have := hup (not_le.1 hgt)
          omega
        rw [hd]
        push_cast
        constructor <;> linarith
      · have hge : 1 / 20 ≤ p.opacity := by
          by_contra hlt
          have := hdown (not_le.1 hlt)
          omega
        rw [hd]
        push_cast
        constructor <;> linarith
    rw [Particle.update]
    simp only [hy, if_false, Particle.Fading]
    refine ⟨?_, hs1, hs2, hbounds.1, hbounds.2, fun hgt => ?_, fun hlt => ?_⟩
    · split_ifs
      · exact Or.inl rfl
      · exact Or.inr rfl
      · exact hdir
    · have hnlt : ¬ (p.opacity + p.fadeDir * p.fadeSpeed < 0.05) := by
        norm_num at hgt ⊢
        linarith
      rw [if_neg hnlt, if_pos hgt]
    · rw [if_pos hlt]

theorem Particle.ticks_fading (p : Particle) (ts : List Tick) (hp : p.Fading)
    (hts : ∀ t ∈ ts, RandomDraws t.rnd) : (p.ticks ts).Fading := by
  induction ts generalizing p with
  | nil => exact hp
  | cons t ts ih =>
    exact ih (p.update t.canvas t.rnd)
      (Particle.update_fading p t.canvas t.rnd hp (hts t (List.mem_cons_self _ _)))
      (fun u hu => hts u (List.mem_cons_of_mem _ hu))

theorem overshootDraws_random : RandomDraws overshootDraws := by
  intro i
  unfold overshootDraws
  split_ifs <;> norm_num

/-- C2, refuted as stated: a particle created by `reset(false)` with opacity
0.499, fade direction +1 and fade speed 0.003 has opacity 0.502 after one
`update` tick, outside [0.05, 0.5]. -/
theorem opacity_bound_counterexample :
    RandomDraws overshootDraws ∧
    (Particle.reset false ⟨800, 600⟩ overshootDraws).opacity = 499 / 1000 ∧
    ((Particle.reset false ⟨800, 600⟩ overshootDraws).ticks
      [⟨⟨800, 600⟩, overshootDraws⟩]).opacity = 251 / 500 ∧
    ¬ (0.05 ≤ ((Particle.reset false ⟨800, 600⟩ overshootDraws).ticks
          [⟨⟨800, 600⟩, overshootDraws⟩]).opacity ∧
        ((Particle.reset false ⟨800, 600⟩ overshootDraws).ticks
          [⟨⟨800, 600⟩, overshootDraws⟩]).opacity ≤ 0.5) := by
  have h0 : (Particle.reset false ⟨800, 600⟩ overshootDraws).opacity = 499 / 1000 := by
    norm_num [Particle.reset, overshootDraws]
  have h1 : ((Particle.reset false ⟨800, 600⟩ overshootDraws).ticks
      [⟨⟨800, 600⟩, overshootDraws⟩]).opacity = 251 / 500 := by
    norm_num [Particle.ticks, Particle.update, Particle.reset, overshootDraws]
  refine ⟨overshootDraws_random, h0, h1, ?_⟩
  rw [h1]
  norm_num

/-- C2, amended: for every particle created by `Particle.reset` from draws in
[0, 1) and every sequence of `update` ticks (each with draws in [0, 1)), the
opacity after the last tick lies in [0.05 - f, 0.5 + f], where f is the
particle's fade speed at that moment and 0.001 ≤ f < 0.004. -/
theorem opacity_within_one_step (forceY : Bool) (c : Canvas) (rnd : ℕ → ℚ) (ts : List Tick)
    (hr : RandomDraws rnd) (hts : ∀ t ∈ ts, RandomDraws t.rnd) :
    0.05 - ((Particle.reset forceY c rnd).ticks ts).fadeSpeed
      ≤ ((Particle.reset forceY c rnd).ticks ts).opacity ∧
    ((Particle.reset forceY c rnd).ticks ts).opacity
      ≤ 0.5 + ((Particle.reset forceY c rnd).ticks ts).fadeSpeed ∧
    0.001 ≤ ((Particle.reset forceY c rnd).ticks ts).fadeSpeed ∧
    ((Particle.reset forceY c rnd).ticks ts).fadeSpeed < 0.004 := by
  obtain ⟨-, hs1, hs2, hlo, hhi, -, -⟩ :=
    Particle.ticks_fading _ ts (Particle.reset_fading forceY c rnd hr) hts
  exact ⟨hlo, hhi, hs1, hs2⟩

/-- The amended C2 on the overshooting particle after one tick. -/
theorem opacity_within_one_step_witness :
    RandomDraws overshootDraws ∧
    ((Particle.reset false ⟨800, 600⟩ overshootDraws).ticks
      [⟨⟨800, 600⟩, overshootDraws⟩]).opacity
      ≤ 0.5 + ((Particle.reset false ⟨800, 600⟩ overshootDraws).ticks
        [⟨⟨800, 600⟩, overshootDraws⟩]).fadeSpeed :=
  ⟨overshootDraws_random,
    (opacity_within_one_step false ⟨800, 600⟩ overshootDraws [⟨⟨800, 600⟩, overshootDraws⟩]
      overshootDraws_random
      (fun t ht => by rw [List.mem_singleton.1 ht]; exact overshootDraws_random)).2.1⟩

/-- C9: for every particle created by `Particle.reset` from draws in [0, 1)
and every sequence of `update` ticks, the opacity stays within
[0.05 - 0.004, 0.5 + 0.004]; whenever it is above 0.5 the fade direction is -1
and whenever it is below 0.05 the fade direction is +1. -/
theorem opacity_relaxed_invariant (forceY : Bool) (c : Canvas) (rnd : ℕ → ℚ) (ts : List Tick)
    (hr : RandomDraws rnd) (hts : ∀ t ∈ ts, RandomDraws t.rnd) :
    0.05 - 0.004 ≤ ((Particle.reset forceY c rnd).ticks ts).opacity ∧
    ((Particle.reset forceY c rnd).ticks ts).opacity ≤ 0.5 + 0.004 ∧
    (((Particle.reset forceY c rnd).ticks ts).opacity > 0.5 →
      ((Particle.reset forceY c rnd).ticks ts).fadeDir = -1) ∧
    (((Particle.reset forceY c rnd).ticks ts).opacity < 0.05 →
      ((Particle.reset forceY c rnd).ticks ts).fadeDir = 1) := by
  obtain ⟨-, -, hs2, hlo, hhi, hup, hdown⟩ :=
    Particle.ticks_fading _ ts (Particle.reset_fading forceY c rnd hr) hts
  refine ⟨?_, ?_, hup, hdown⟩
  · norm_num at hs2 hlo ⊢
    linarith
  · norm_num at hs2 hhi ⊢
    linarith

/-- C9 on the overshooting particle after one tick: the opacity is above 0.5
and the fade direction has flipped to -1. -/
theorem opacity_relaxed_invariant_witness :
    RandomDraws overshootDraws ∧
    (Particle.reset false ⟨800, 600⟩ overshootDraws).fadeDir = 1 ∧
    ((Particle.reset false ⟨800, 600⟩ overshootDraws).ticks
      [⟨⟨800, 600⟩, overshootDraws⟩]).fadeDir = -1 := by
  have h := opacity_relaxed_invariant false ⟨800, 600⟩ overshootDraws
    [⟨⟨800, 600⟩, overshootDraws⟩] overshootDraws_random
    (fun t ht => by rw [List.mem_singleton.1 ht]; exact overshootDraws_random)
  refine ⟨overshootDraws_random, by norm_num [Particle.reset, overshootDraws], h.2.2.1 ?_⟩
  norm_num [Particle.ticks, Particle.update, Particle.reset, overshootDraws]

/-- C5: for a particle with `speedY` in [0.1, 0.4) and a surface of height H,
if the y-position is greater than H + 10 before `update`, the call recycles
the particle through `reset(true)`: afterwards its y-position is exactly -10,
hence less than 0. -/
theorem particle_recycled (p : Particle) (c : Canvas) (rnd : ℕ → ℚ)
    (hs : 0.1 ≤ p.speedY ∧ p.speedY < 0.4) (hy : p.y > c.height + 10) :
    p.update c rnd = Particle.reset true c rnd ∧
    (p.update c rnd).y = -10 ∧ (p.update c rnd).y < 0 := by
  have hpos : (0 : ℚ) < p.speedY := by
    have := hs.1
    norm_num at this
    linarith
  have hgt : p.y + p.speedY > c.height + 10 := by linarith
  have hupd : p.update c rnd = Particle.reset true c rnd := by
    rw [Particle.update]
    simp only [hgt, if_true]
  refine ⟨hupd, ?_, ?_⟩
  · rw [hupd]; simp [Particle.reset]
  · rw [hupd]; simp [Particle.reset]

/-- C5 on a particle at y = 611 over a surface 600 px high. -/
theorem particle_recycled_witness :
    fallenParticle.y > (Canvas.mk 800 600).height + 10 ∧
    (fallenParticle.update ⟨800, 600⟩ (fun _ => 1 / 2)).y = -10 :=
  have hy : fallenParticle.y > (Canvas.mk 800 600).height + 10 := by
    norm_num [fallenParticle]
  ⟨hy, (particle_recycled fallenParticle ⟨800, 600⟩ (fun _ => 1 / 2)
    (by norm_num [fallenParticle]) hy).2.1⟩

end BookOfLife
